import Mathlib

/-!
Verification of the `defaultdict` Rust library (`DefaultHashMap` in
`src/default_hashmap.rs` and `DefaultBTreeMap` in `src/default_btree.rs`)
against its natural-language specification.

The backing `std::collections::HashMap` is modelled as an association list in
iteration order, and the backing `std::collections::BTreeMap` as an
association list kept sorted by key.  Rust's `Default` trait on the value
type (`V::default()`) is modelled by Lean's `Inhabited` (`default : V`).
Each Rust method that takes `&mut self` is modelled as a function returning
the method's result paired with the successor state.
-/

namespace Defaultdict

/-- Lookup of the binding for `key` in an association list: models
`HashMap::get` / `BTreeMap::get` (returns the value of the unique entry
whose key equals `key`, if any). -/
def alookup {K V : Type} [DecidableEq K] : List (K × V) → K → Option V
  | [], _ => none
  | (k, v) :: rest, key => if k = key then some v else alookup rest key

/-- Lookup returning the stored key together with the value: models
`HashMap::get_key_value` / `BTreeMap::get_key_value`. -/
def alookupEntry {K V : Type} [DecidableEq K] : List (K × V) → K → Option (K × V)
  | [], _ => none
  | (k, v) :: rest, key => if k = key then some (k, v) else alookupEntry rest key

/-- Models `HashMap::insert`: replaces the value of an existing entry
(keeping the stored key) and returns the previous value, or appends a new
entry and returns `none`. -/
def mapInsert {K V : Type} [DecidableEq K] : List (K × V) → K → V → Option V × List (K × V)
  | [], key, value => (none, [(key, value)])
  | (k, v) :: rest, key, value =>
    if k = key then (some v, (k, value) :: rest)
    else
      let r := mapInsert rest key value
      (r.1, (k, v) :: r.2)

/-- Models `HashMap::remove` / `BTreeMap::remove`: removes the entry for
`key` if present, returning its value. -/
def mapRemove {K V : Type} [DecidableEq K] : List (K × V) → K → Option V × List (K × V)
  | [], _ => (none, [])
  | (k, v) :: rest, key =>
    if k = key then (some v, rest)
    else
      let r := mapRemove rest key
      (r.1, (k, v) :: r.2)

/-- Models `HashMap::remove_entry` / `BTreeMap::remove_entry`: removes the
entry for `key` if present, returning the stored key/value pair. -/
def mapRemoveEntry {K V : Type} [DecidableEq K] : List (K × V) → K → Option (K × V) × List (K × V)
  | [], _ => (none, [])
  | (k, v) :: rest, key =>
    if k = key then (some (k, v), rest)
    else
      let r := mapRemoveEntry rest key
      (r.1, (k, v) :: r.2)

/-- Models `BTreeMap::insert` on the sorted-list representation: replaces
the value of an existing entry (keeping the stored key) or inserts a new
entry at its sorted position. -/
def sortedInsert {K V : Type} [LinearOrder K] : List (K × V) → K → V → List (K × V)
  | [], key, value => [(key, value)]
  | (k, v) :: rest, key, value =>
    if key < k then (key, value) :: (k, v) :: rest
    else if k = key then (k, value) :: rest
    else (k, v) :: sortedInsert rest key value

/-- Models `retain` on the backing container: the predicate receives the key
and may mutate the value in place before deciding; entries for which it
answers `false` are removed. -/
def retainList {K V : Type} : List (K × V) → (K → V → V × Bool) → List (K × V)
  | [], _ => []
  | (k, v) :: rest, f =>
    let r := f k v
    if r.2 then (k, r.1) :: retainList rest f else retainList rest f

/-- Models mutation of stored values through `values_mut`, mutable
iteration, `range_mut` or an occupied `entry` handle: every stored value may
be rewritten in place, keys and entry set unchanged. -/
def mutateList {K V : Type} (l : List (K × V)) (f : K → V → V) : List (K × V) :=
  l.map (fun kv => (kv.1, f kv.1 kv.2))

/-- The keys of an association list, in iteration order. -/
def keyList {K V : Type} (l : List (K × V)) : List K := l.map Prod.fst

/-- The key set of an association list has no duplicates.  Every state of a
backing `HashMap`/`BTreeMap` satisfies this. -/
def nodupKeys {K V : Type} (l : List (K × V)) : Prop := (keyList l).Nodup

/-- The keys of an association list are strictly increasing: the canonical
form of a backing `BTreeMap` state. -/
def keysSorted {K V : Type} [LinearOrder K] (l : List (K × V)) : Prop :=
  l.Pairwise (fun a b => a.1 < b.1)

/-- Models `PartialEq` of `std::collections::HashMap`: equal lengths, and
every entry of the left map is present with an equal value in the right
map. -/
def hashInnerEq {K V : Type} [DecidableEq K] [DecidableEq V] (a b : List (K × V)) : Bool :=
  a.length == b.length && a.all (fun kv => alookup b kv.1 == some kv.2)

/-- The struct `DefaultHashMap` of `src/default_hashmap.rs`: a backing
`HashMap` (field `_inner`) plus one stored default value (field
`_default`). -/
structure DefaultHashMap (K V : Type) where
  _inner : List (K × V)
  _default : V

/-- The struct `DefaultBTreeMap` of `src/default_btree.rs`: a backing
`BTreeMap` (field `_inner`, kept in sorted order) plus one stored default
value (field `_default`). -/
structure DefaultBTreeMap (K V : Type) where
  _inner : List (K × V)
  _default : V

namespace DefaultHashMap

variable {K V : Type}

/-- `DefaultHashMap::new`: empty backing map, eagerly constructed default. -/
def new [Inhabited V] : DefaultHashMap K V := ⟨[], default⟩

/-- `DefaultHashMap::with_hasher`: the hash builder does not affect the
observable contents, so the model coincides with `new`. -/
def withHasher [Inhabited V] : DefaultHashMap K V := ⟨[], default⟩

/-- `DefaultHashMap::clear`: `self._inner.clear()`. -/
def clear (m : DefaultHashMap K V) : DefaultHashMap K V := ⟨[], m._default⟩

/-- `DefaultHashMap::contains_key`: `self._inner.contains_key(key)`. -/
def containsKey [DecidableEq K] (m : DefaultHashMap K V) (key : K) : Bool :=
  (alookup m._inner key).isSome

/-- `DefaultHashMap::len`: `self._inner.len()`. -/
def len (m : DefaultHashMap K V) : Nat := m._inner.length

/-- `DefaultHashMap::is_empty`: `self._inner.is_empty()`. -/
def isEmpty (m : DefaultHashMap K V) : Bool := m._inner.isEmpty

/-- `DefaultHashMap::get`: `self._inner.get(key).unwrap_or(&self._default)`. -/
def get [DecidableEq K] (m : DefaultHashMap K V) (key : K) : V :=
  (alookup m._inner key).getD m._default

/-- `DefaultHashMap::get_key_value`:
`self._inner.get_key_value(key).unwrap_or((key, &self._default))`. -/
def getKeyValue [DecidableEq K] (m : DefaultHashMap K V) (key : K) : K × V :=
  (alookupEntry m._inner key).getD (key, m._default)

/-- `DefaultHashMap::insert`: `self._inner.insert(key, value)`, returning
the previous value when one was present. -/
def insert [DecidableEq K] (m : DefaultHashMap K V) (key : K) (value : V) :
    Option V × DefaultHashMap K V :=
  let r := mapInsert m._inner key value
  (r.1, ⟨r.2, m._default⟩)

/-- `DefaultHashMap::get_mut`: checks `self._inner.keys().any(|k| key == k)`,
inserts `(key.clone(), V::default())` when absent, then returns
`self._inner.get_mut(key).unwrap()`.  The final `unwrap` is modelled with
`Option.getD default`; its `none` branch is unreachable because the key is
present after the conditional insert. -/
def getMut [DecidableEq K] [Inhabited V] (m : DefaultHashMap K V) (key : K) :
    V × DefaultHashMap K V :=
  let present := (keyList m._inner).any (fun k => key == k)
  let m1 := if present then m else (m.insert key default).2
  ((alookup m1._inner key).getD default, m1)

/-- `DefaultHashMap::remove`: `self._inner.remove(key).unwrap_or_default()`
(the absent case returns a freshly constructed `V::default()`). -/
def remove [DecidableEq K] [Inhabited V] (m : DefaultHashMap K V) (key : K) :
    V × DefaultHashMap K V :=
  let r := mapRemove m._inner key
  (r.1.getD default, ⟨r.2, m._default⟩)

/-- `DefaultHashMap::remove_entry`:
`self._inner.remove_entry(key).unwrap_or((key.clone(), self._default.to_owned()))`. -/
def removeEntry [DecidableEq K] (m : DefaultHashMap K V) (key : K) :
    (K × V) × DefaultHashMap K V :=
  let r := mapRemoveEntry m._inner key
  (r.1.getD (key, m._default), ⟨r.2, m._default⟩)

/-- `DefaultHashMap::retain`: `self._inner.retain(func)`. -/
def retain (m : DefaultHashMap K V) (f : K → V → V × Bool) : DefaultHashMap K V :=
  ⟨retainList m._inner f, m._default⟩

/-- Mutation of stored values through `values_mut` or mutable iteration. -/
def mutateValues (m : DefaultHashMap K V) (f : K → V → V) : DefaultHashMap K V :=
  ⟨mutateList m._inner f, m._default⟩

/-- The `PartialEq` impl for `DefaultHashMap`:
`self._inner == other._inner && self._default == other._default`. -/
def beq [DecidableEq K] [DecidableEq V] (x y : DefaultHashMap K V) : Bool :=
  hashInnerEq x._inner y._inner && x._default == y._default

/-- The `Index<&K>` impl for `DefaultHashMap`:
`self._inner.get(key).unwrap_or(&self._default)` (no panicking path). -/
def index [DecidableEq K] (m : DefaultHashMap K V) (key : K) : V :=
  (alookup m._inner key).getD m._default

/-- The `From<HashMap<K, V, S>> for DefaultHashMap<K, V, S>` impl: wraps the
map and installs a freshly constructed default. -/
def fromHashMap [Inhabited V] (l : List (K × V)) : DefaultHashMap K V := ⟨l, default⟩

/-- The `From<DefaultHashMap<K, V, S>> for HashMap<K, V, S>` impl: returns
the backing map, discarding the stored default. -/
def toHashMap (m : DefaultHashMap K V) : List (K × V) := m._inner

end DefaultHashMap

/-- The struct `DefaultHashMapIter` of `src/default_hashmap.rs`: owns the
whole map plus the snapshot `Vec` of its keys. -/
structure DefaultHashMapIter (K V : Type) where
  _defaulthashmap : DefaultHashMap K V
  keys : List K

/-- Models `Vec::pop`: removes and returns the last element, if any. -/
def vecPop {K : Type} (l : List K) : Option (K × List K) :=
  match l.getLast? with
  | some x => some (x, l.dropLast)
  | none => none

namespace DefaultHashMap

/-- The `IntoIterator` impl for `DefaultHashMap`: pushes every key of the
map onto a `Vec` in iteration order and pairs it with the owned map. -/
def intoIter {K V : Type} (m : DefaultHashMap K V) : DefaultHashMapIter K V :=
  ⟨m, keyList m._inner⟩

end DefaultHashMap

namespace DefaultHashMapIter

/-- One step of the `Iterator` impl for `DefaultHashMapIter`: pops the last
snapshot key and removes it (with its value) from the owned map. -/
def next {K V : Type} [DecidableEq K] [Inhabited V] (it : DefaultHashMapIter K V) :
    Option ((K × V) × DefaultHashMapIter K V) :=
  match vecPop it.keys with
  | some r =>
    let rm := it._defaulthashmap.remove r.1
    some ((r.1, rm.1), ⟨rm.2, r.2⟩)
  | none => none

/-- Running the consuming iterator to exhaustion: repeatedly pop the last
snapshot key, remove it from the owned map, and emit the pair, exactly as
draining the Rust `Iterator` impl does. -/
def collect {K V : Type} [DecidableEq K] [Inhabited V] (it : DefaultHashMapIter K V) :
    List (K × V) :=
  match hp : vecPop it.keys with
  | some r =>
    let rm := it._defaulthashmap.remove r.1
    (r.1, rm.1) :: collect ⟨rm.2, r.2⟩
  | none => []
termination_by it.keys.length
decreasing_by
  simp only [vecPop] at hp
  cases hl : it.keys.getLast? with
  | none => rw [hl] at hp; exact absurd hp (by simp)
  | some x =>
    rw [hl] at hp
    simp only [Option.some.injEq] at hp
    have hne : it.keys ≠ [] := by
      intro he
      rw [he] at hl
      exact absurd hl (by simp)
    have hpos : 0 < it.keys.length := List.length_pos.mpr hne
    rw [← hp]
    simp only [List.length_dropLast]
    omega

end DefaultHashMapIter

namespace DefaultBTreeMap

variable {K V : Type}

/-- `DefaultBTreeMap::new`: empty backing map, eagerly constructed default. -/
def new [Inhabited V] : DefaultBTreeMap K V := ⟨[], default⟩

/-- `DefaultBTreeMap::clear`: `self._inner.clear()`. -/
def clear (m : DefaultBTreeMap K V) : DefaultBTreeMap K V := ⟨[], m._default⟩

/-- `DefaultBTreeMap::contains_key`: `self._inner.contains_key(key)`. -/
def containsKey [DecidableEq K] (m : DefaultBTreeMap K V) (key : K) : Bool :=
  (alookup m._inner key).isSome

/-- `DefaultBTreeMap::len`: `self._inner.len()`. -/
def len (m : DefaultBTreeMap K V) : Nat := m._inner.length

/-- `DefaultBTreeMap::is_empty`: `self._inner.is_empty()`. -/
def isEmpty (m : DefaultBTreeMap K V) : Bool := m._inner.isEmpty

/-- `DefaultBTreeMap::get`: `self._inner.get(key).unwrap_or(&self._default)`. -/
def get [DecidableEq K] (m : DefaultBTreeMap K V) (key : K) : V :=
  (alookup m._inner key).getD m._default

/-- `DefaultBTreeMap::get_key_value`:
`self._inner.get_key_value(key).unwrap_or((key, &self._default))`. -/
def getKeyValue [DecidableEq K] (m : DefaultBTreeMap K V) (key : K) : K × V :=
  (alookupEntry m._inner key).getD (key, m._default)

/-- `DefaultBTreeMap::insert`: `let _ = &self._inner.insert(key, value);` —
the previous value is discarded and the method returns the unit value. -/
def insert [LinearOrder K] (m : DefaultBTreeMap K V) (key : K) (value : V) :
    Unit × DefaultBTreeMap K V :=
  ((), ⟨sortedInsert m._inner key value, m._default⟩)

/-- `DefaultBTreeMap::get_mut`: checks `self._inner.keys().any(|k| key == k)`,
inserts `(key.clone(), V::default())` when absent, then returns
`self._inner.get_mut(key).unwrap()`; the `unwrap` is modelled with
`Option.getD default`, its `none` branch being unreachable. -/
def getMut [LinearOrder K] [Inhabited V] (m : DefaultBTreeMap K V) (key : K) :
    V × DefaultBTreeMap K V :=
  let present := (keyList m._inner).any (fun k => key == k)
  let m1 := if present then m else (m.insert key default).2
  ((alookup m1._inner key).getD default, m1)

/-- `DefaultBTreeMap::remove`: `self._inner.remove(key).unwrap_or_default()`. -/
def remove [DecidableEq K] [Inhabited V] (m : DefaultBTreeMap K V) (key : K) :
    V × DefaultBTreeMap K V :=
  let r := mapRemove m._inner key
  (r.1.getD default, ⟨r.2, m._default⟩)

/-- `DefaultBTreeMap::remove_entry`:
`self._inner.remove_entry(key).unwrap_or((key.clone(), self._default.to_owned()))`. -/
def removeEntry [DecidableEq K] (m : DefaultBTreeMap K V) (key : K) :
    (K × V) × DefaultBTreeMap K V :=
  let r := mapRemoveEntry m._inner key
  (r.1.getD (key, m._default), ⟨r.2, m._default⟩)

/-- `DefaultBTreeMap::retain`: `self._inner.retain(func)`. -/
def retain (m : DefaultBTreeMap K V) (f : K → V → V × Bool) : DefaultBTreeMap K V :=
  ⟨retainList m._inner f, m._default⟩

/-- Mutation of stored values through `values_mut`, `range_mut`, mutable
iteration or an occupied `entry` handle. -/
def mutateValues (m : DefaultBTreeMap K V) (f : K → V → V) : DefaultBTreeMap K V :=
  ⟨mutateList m._inner f, m._default⟩

/-- `DefaultBTreeMap::pop_first`: `self._inner.pop_first()`. -/
def popFirst (m : DefaultBTreeMap K V) : Option (K × V) × DefaultBTreeMap K V :=
  match m._inner with
  | [] => (none, m)
  | kv :: rest => (some kv, ⟨rest, m._default⟩)

/-- `DefaultBTreeMap::pop_last`: `self._inner.pop_last()`. -/
def popLast (m : DefaultBTreeMap K V) : Option (K × V) × DefaultBTreeMap K V :=
  match m._inner.getLast? with
  | none => (none, m)
  | some kv => (some kv, ⟨m._inner.dropLast, m._default⟩)

/-- `DefaultBTreeMap::append`: moves all entries of `other` into `self`
(entries of `other` win on key collision), leaving `other` empty; returns
the successor states of `self` and `other`. -/
def append [LinearOrder K] (m o : DefaultBTreeMap K V) :
    DefaultBTreeMap K V × DefaultBTreeMap K V :=
  (⟨o._inner.foldl (fun acc kv => sortedInsert acc kv.1 kv.2) m._inner, m._default⟩,
   ⟨[], o._default⟩)

/-- `DefaultBTreeMap::split_off`: `self` keeps the entries with keys below
`key`; the entries from `key` on are returned via
`self._inner.split_off(key).into()`, which installs a fresh default. -/
def splitOff [LinearOrder K] [Inhabited V] (m : DefaultBTreeMap K V) (key : K) :
    DefaultBTreeMap K V × DefaultBTreeMap K V :=
  (⟨m._inner.filter (fun kv => kv.1 < key), m._default⟩,
   ⟨m._inner.filter (fun kv => key ≤ kv.1), default⟩)

/-- The derived `PartialEq` impl for `DefaultBTreeMap`: componentwise
equality of `_inner` (std `BTreeMap` equality is equality of the sorted
entry sequences) and `_default`. -/
def beq [DecidableEq K] [DecidableEq V] (x y : DefaultBTreeMap K V) : Bool :=
  x._inner == y._inner && x._default == y._default

/-- The `Index<&K>` impl for `DefaultBTreeMap`:
`self._inner.get(key).unwrap_or(&self._default)` (no panicking path). -/
def index [DecidableEq K] (m : DefaultBTreeMap K V) (key : K) : V :=
  (alookup m._inner key).getD m._default

/-- The `From<BTreeMap<K, V>> for DefaultBTreeMap<K, V>` impl: wraps the map
and installs a freshly constructed default. -/
def fromBTreeMap [Inhabited V] (l : List (K × V)) : DefaultBTreeMap K V := ⟨l, default⟩

/-- The `From<DefaultBTreeMap<K, V>> for BTreeMap<K, V>` impl: returns the
backing map, discarding the stored default. -/
def toBTreeMap (m : DefaultBTreeMap K V) : List (K × V) := m._inner

end DefaultBTreeMap

/-- A range bound, modelling `std::ops::Bound`. -/
inductive RangeBound (K : Type) where
  | included : K → RangeBound K
  | excluded : K → RangeBound K
  | unbounded : RangeBound K

/-- The panic condition of `BTreeMap::range`, to which
`DefaultBTreeMap::range` forwards, as documented at the forwarding site:
the call panics when the range start exceeds the end, or when the bounds
are equal and both exclusive. -/
def rangeInvalid {K : Type} [LinearOrder K] : RangeBound K → RangeBound K → Bool
  | RangeBound.included a, RangeBound.included b => decide (b < a)
  | RangeBound.included a, RangeBound.excluded b => decide (b < a)
  | RangeBound.excluded a, RangeBound.included b => decide (b < a)
  | RangeBound.excluded a, RangeBound.excluded b => decide (b < a ∨ a = b)
  | _, _ => false

/-- Whether `k` satisfies the lower bound. -/
def aboveLower {K : Type} [LinearOrder K] (lo : RangeBound K) (k : K) : Bool :=
  match lo with
  | RangeBound.included a => decide (a ≤ k)
  | RangeBound.excluded a => decide (a < k)
  | RangeBound.unbounded => true

/-- Whether `k` satisfies the upper bound. -/
def belowUpper {K : Type} [LinearOrder K] (hi : RangeBound K) (k : K) : Bool :=
  match hi with
  | RangeBound.included b => decide (k ≤ b)
  | RangeBound.excluded b => decide (k < b)
  | RangeBound.unbounded => true

namespace DefaultBTreeMap

/-- `DefaultBTreeMap::range`: `self._inner.range(range)`.  A contract
violation aborts the call (`Except.error`); otherwise the entries inside
the bounds are yielded in the order stored, which on the sorted
representation is ascending key order. -/
def range {K V : Type} [LinearOrder K] (m : DefaultBTreeMap K V)
    (lo hi : RangeBound K) : Except Unit (List (K × V)) :=
  if rangeInvalid lo hi then Except.error ()
  else Except.ok (m._inner.filter (fun kv => aboveLower lo kv.1 && belowUpper hi kv.1))

end DefaultBTreeMap

/-- States of `DefaultHashMap` reachable by sequences of its public
operations (construction, conversion from a plain map, insertion, mutable
default-fetch, removal, clearing, retention, and in-place value mutation
via `values_mut` / mutable iteration / `entry`). -/
inductive HReachable {K V : Type} [DecidableEq K] [Inhabited V] :
    DefaultHashMap K V → Prop where
  | new : HReachable DefaultHashMap.new
  | withHasher : HReachable DefaultHashMap.withHasher
  | fromHashMap (l : List (K × V)) : HReachable (DefaultHashMap.fromHashMap l)
  | insert (m : DefaultHashMap K V) (k : K) (v : V) :
      HReachable m → HReachable (m.insert k v).2
  | getMut (m : DefaultHashMap K V) (k : K) :
      HReachable m → HReachable (m.getMut k).2
  | remove (m : DefaultHashMap K V) (k : K) :
      HReachable m → HReachable (m.remove k).2
  | removeEntry (m : DefaultHashMap K V) (k : K) :
      HReachable m → HReachable (m.removeEntry k).2
  | clear (m : DefaultHashMap K V) : HReachable m → HReachable m.clear
  | retain (m : DefaultHashMap K V) (f : K → V → V × Bool) :
      HReachable m → HReachable (m.retain f)
  | mutateValues (m : DefaultHashMap K V) (f : K → V → V) :
      HReachable m → HReachable (m.mutateValues f)

/-- States of `DefaultBTreeMap` reachable by sequences of its public
operations. -/
inductive BReachable {K V : Type} [LinearOrder K] [Inhabited V] :
    DefaultBTreeMap K V → Prop where
  | new : BReachable DefaultBTreeMap.new
  | fromBTreeMap (l : List (K × V)) : BReachable (DefaultBTreeMap.fromBTreeMap l)
  | insert (m : DefaultBTreeMap K V) (k : K) (v : V) :
      BReachable m → BReachable (m.insert k v).2
  | getMut (m : DefaultBTreeMap K V) (k : K) :
      BReachable m → BReachable (m.getMut k).2
  | remove (m : DefaultBTreeMap K V) (k : K) :
      BReachable m → BReachable (m.remove k).2
  | removeEntry (m : DefaultBTreeMap K V) (k : K) :
      BReachable m → BReachable (m.removeEntry k).2
  | clear (m : DefaultBTreeMap K V) : BReachable m → BReachable m.clear
  | retain (m : DefaultBTreeMap K V) (f : K → V → V × Bool) :
      BReachable m → BReachable (m.retain f)
  | mutateValues (m : DefaultBTreeMap K V) (f : K → V → V) :
      BReachable m → BReachable (m.mutateValues f)
  | popFirst (m : DefaultBTreeMap K V) : BReachable m → BReachable (m.popFirst).2
  | popLast (m : DefaultBTreeMap K V) : BReachable m → BReachable (m.popLast).2
  | appendLeft (m o : DefaultBTreeMap K V) :
      BReachable m → BReachable o → BReachable (m.append o).1
  | appendRight (m o : DefaultBTreeMap K V) :
      BReachable m → BReachable o → BReachable (m.append o).2
  | splitOffLeft (m : DefaultBTreeMap K V) (k : K) :
      BReachable m → BReachable (m.splitOff k).1
  | splitOffRight (m : DefaultBTreeMap K V) (k : K) :
      BReachable m → BReachable (m.splitOff k).2

/-! Helper lemmas about the association-list model. -/

theorem mapInsert_fst {K V : Type} [DecidableEq K] (l : List (K × V)) (k : K) (v : V) :
    (mapInsert l k v).1 = alookup l k := by
  induction l with
  | nil => rfl
  | cons kv rest ih =>
    obtain ⟨k0, v0⟩ := kv
    by_cases h : k0 = k
    · simp [mapInsert, alookup, h]
    · simp [mapInsert, alookup, h, ih]

theorem alookup_mapInsert_self {K V : Type} [DecidableEq K] (l : List (K × V)) (k : K) (v : V) :
    alookup (mapInsert l k v).2 k = some v := by
  induction l with
  | nil => simp [mapInsert, alookup]
  | cons kv rest ih =>
    obtain ⟨k0, v0⟩ := kv
    by_cases h : k0 = k
    · simp [mapInsert, alookup, h]
    · simp [mapInsert, alookup, h, ih]

theorem mapInsert_of_none {K V : Type} [DecidableEq K] {l : List (K × V)} {k : K}
    (h : alookup l k = none) (v : V) : (mapInsert l k v).2 = l ++ [(k, v)] := by
  induction l with
  | nil => simp [mapInsert]
  | cons kv rest ih =>
    obtain ⟨k0, v0⟩ := kv
    by_cases h0 : k0 = k
    · simp [alookup, h0] at h
    · simp [alookup, h0] at h
      simp [mapInsert, h0, ih h]

theorem mapRemove_fst {K V : Type} [DecidableEq K] (l : List (K × V)) (k : K) :
    (mapRemove l k).1 = alookup l k := by
  induction l with
  | nil => rfl
  | cons kv rest ih =>
    obtain ⟨k0, v0⟩ := kv
    by_cases h : k0 = k
    · simp [mapRemove, alookup, h]
    · simp [mapRemove, alookup, h, ih]

theorem mapRemove_of_none {K V : Type} [DecidableEq K] {l : List (K × V)} {k : K}
    (h : alookup l k = none) : (mapRemove l k).2 = l := by
  induction l with
  | nil => rfl
  | cons kv rest ih =>
    obtain ⟨k0, v0⟩ := kv
    by_cases h0 : k0 = k
    · simp [alookup, h0] at h
    · simp [alookup, h0] at h
      simp [mapRemove, h0, ih h]

theorem mapRemove_length_of_some {K V : Type} [DecidableEq K] {l : List (K × V)} {k : K}
    {v : V} (h : alookup l k = some v) : (mapRemove l k).2.length + 1 = l.length := by
  induction l with
  | nil => simp [alookup] at h
  | cons kv rest ih =>
    obtain ⟨k0, v0⟩ := kv
    by_cases h0 : k0 = k
    · simp [mapRemove, h0]
    · simp [alookup, h0] at h
      simp [mapRemove, h0]
      exact ih h

theorem alookupEntry_eq {K V : Type} [DecidableEq K] (l : List (K × V)) (k : K) :
    alookupEntry l k = (alookup l k).map (fun v => (k, v)) := by
  induction l with
  | nil => rfl
  | cons kv rest ih =>
    obtain ⟨k0, v0⟩ := kv
    by_cases h : k0 = k
    · subst h; simp [alookupEntry, alookup]
    · simp [alookupEntry, alookup, h, ih]

theorem mapRemoveEntry_fst {K V : Type} [DecidableEq K] (l : List (K × V)) (k : K) :
    (mapRemoveEntry l k).1 = alookupEntry l k := by
  induction l with
  | nil => rfl
  | cons kv rest ih =>
    obtain ⟨k0, v0⟩ := kv
    by_cases h : k0 = k
    · simp [mapRemoveEntry, alookupEntry, h]
    · simp [mapRemoveEntry, alookupEntry, h, ih]

theorem mapRemoveEntry_snd {K V : Type} [DecidableEq K] (l : List (K × V)) (k : K) :
    (mapRemoveEntry l k).2 = (mapRemove l k).2 := by
  induction l with
  | nil => rfl
  | cons kv rest ih =>
    obtain ⟨k0, v0⟩ := kv
    by_cases h : k0 = k
    · simp [mapRemoveEntry, mapRemove, h]
    · simp [mapRemoveEntry, mapRemove, h, ih]

theorem alookup_sortedInsert_self {K V : Type} [LinearOrder K] (l : List (K × V)) (k : K)
    (v : V) : alookup (sortedInsert l k v) k = some v := by
  induction l with
  | nil => simp [sortedInsert, alookup]
  | cons kv rest ih =>
    obtain ⟨k0, v0⟩ := kv
    by_cases h1 : k < k0
    · simp [sortedInsert, h1, alookup]
    · by_cases h2 : k0 = k
      · simp [sortedInsert, h1, h2, alookup]
      · simp [sortedInsert, h1, h2, alookup, ih]

theorem sortedInsert_length_of_none {K V : Type} [LinearOrder K] {l : List (K × V)} {k : K}
    (h : alookup l k = none) (v : V) : (sortedInsert l k v).length = l.length + 1 := by
  induction l with
  | nil => rfl
  | cons kv rest ih =>
    obtain ⟨k0, v0⟩ := kv
    by_cases h0 : k0 = k
    · simp [alookup, h0] at h
    · simp [alookup, h0] at h
      by_cases h1 : k < k0
      · simp [sortedInsert, h1]
      · simp [sortedInsert, h1, h0, ih h]

theorem keyAny_eq_isSome {K V : Type} [DecidableEq K] (l : List (K × V)) (k : K) :
    ((keyList l).any (fun x => k == x)) = (alookup l k).isSome := by
  induction l with
  | nil => rfl
  | cons kv rest ih =>
    obtain ⟨k0, v0⟩ := kv
    by_cases h : k0 = k
    · subst h; simp [keyList, alookup]
    · have h2 : ¬(k = k0) := fun e => h e.symm
      have h3 : (k == k0) = false := beq_eq_false_iff_ne.mpr h2
      simp [keyList, alookup, h, h3]
      simpa [keyList] using ih

theorem mem_keyList_iff {K V : Type} [DecidableEq K] (l : List (K × V)) (k : K) :
    k ∈ keyList l ↔ (alookup l k).isSome = true := by
  induction l with
  | nil => simp [keyList, alookup]
  | cons kv rest ih =>
    obtain ⟨k0, v0⟩ := kv
    by_cases h : k0 = k
    · subst h; simp [keyList, alookup]
    · have h2 : ¬(k = k0) := fun e => h e.symm
      simp [keyList, alookup, h, h2] at ih ⊢
      simpa [keyList] using ih

theorem mem_of_alookup_some {K V : Type} [DecidableEq K] {l : List (K × V)} {k : K} {v : V}
    (h : alookup l k = some v) : (k, v) ∈ l := by
  induction l with
  | nil => simp [alookup] at h
  | cons kv rest ih =>
    obtain ⟨k0, v0⟩ := kv
    by_cases h0 : k0 = k
    · subst h0
      simp [alookup] at h
      simp [h]
    · simp [alookup, h0] at h
      exact List.mem_cons_of_mem _ (ih h)

theorem alookup_of_mem_nodup {K V : Type} [DecidableEq K] {l : List (K × V)} {k : K} {v : V}
    (hnd : nodupKeys l) (hm : (k, v) ∈ l) : alookup l k = some v := by
  induction l with
  | nil => simp at hm
  | cons kv rest ih =>
    obtain ⟨k0, v0⟩ := kv
    rw [nodupKeys, keyList] at hnd
    simp only [List.map_cons, List.nodup_cons] at hnd
    rcases List.mem_cons.mp hm with h1 | h1
    · have e1 : k = k0 := congrArg Prod.fst h1
      have e2 : v = v0 := congrArg Prod.snd h1
      subst e1; subst e2
      simp [alookup]
    · have hk : k ∈ keyList rest := by
        rw [keyList]
        exact List.mem_map_of_mem Prod.fst h1
      have hne : ¬(k0 = k) := by
        intro e
        rw [keyList] at hk
        exact hnd.1 (e ▸ hk)
      simp [alookup, hne]
      exact ih hnd.2 h1

theorem alookup_eq_none_of_forall_ne {K V : Type} [DecidableEq K] {l : List (K × V)} {k : K}
    (h : ∀ p ∈ l, p.1 ≠ k) : alookup l k = none := by
  induction l with
  | nil => rfl
  | cons kv rest ih =>
    obtain ⟨k0, v0⟩ := kv
    have h0 : k0 ≠ k := h (k0, v0) (List.mem_cons_self _ _)
    simp [alookup, h0]
    exact ih (fun p hp => h p (List.mem_cons_of_mem _ hp))

theorem hashInnerEq_iff {K V : Type} [DecidableEq K] [DecidableEq V] {a b : List (K × V)}
    (ha : nodupKeys a) (hb : nodupKeys b) :
    hashInnerEq a b = true ↔ ∀ k, alookup a k = alookup b k := by
  rw [hashInnerEq]
  simp only [Bool.and_eq_true, beq_iff_eq, List.all_eq_true]
  constructor
  · rintro ⟨hlen, hall⟩ k
    cases hak : alookup a k with
    | some v =>
      have hv := hall (k, v) (mem_of_alookup_some hak)
      exact hv.symm
    | none =>
      have hka : k ∉ keyList a := by
        rw [mem_keyList_iff, hak]
        simp
      have hsub : ∀ x, x ∈ keyList a → x ∈ keyList b := by
        intro x hx
        rw [mem_keyList_iff] at hx
        cases hax : alookup a x with
        | none => rw [hax] at hx; simp at hx
        | some w =>
          have hw := hall (x, w) (mem_of_alookup_some hax)
          rw [mem_keyList_iff, hw]
          rfl
      have hlen2 : (keyList b).length ≤ (keyList a).length := by
        simp [keyList, hlen]
      have hfin : (keyList a).toFinset = (keyList b).toFinset := by
        apply Finset.eq_of_subset_of_card_le
        · intro x hx
          exact List.mem_toFinset.mpr (hsub x (List.mem_toFinset.mp hx))
        · rw [List.toFinset_card_of_nodup ha, List.toFinset_card_of_nodup hb]
          exact hlen2
      cases hbk : alookup b k with
      | none => rfl
      | some w =>
        exfalso
        apply hka
        rw [← List.mem_toFinset, hfin, List.mem_toFinset, mem_keyList_iff, hbk]
        rfl
  · intro hlk
    constructor
    · have hperm : (keyList a).Perm (keyList b) := by
        rw [List.perm_ext_iff_of_nodup ha hb]
        intro x
        rw [mem_keyList_iff, mem_keyList_iff, hlk x]
      have hl := hperm.length_eq
      simpa [keyList] using hl
    · intro kv hm
      have h1 : alookup a kv.1 = some kv.2 := alookup_of_mem_nodup ha hm
      rw [← hlk kv.1]
      exact h1

theorem alookup_head_lt {K V : Type} [LinearOrder K] {k0 : K} {v0 : V} {rest : List (K × V)}
    (hs : keysSorted ((k0, v0) :: rest)) {k : K} (hk : k < k0) :
    alookup ((k0, v0) :: rest) k = none := by
  rw [keysSorted, List.pairwise_cons] at hs
  have h0 : ¬(k0 = k) := fun e => absurd hk (by rw [e]; exact lt_irrefl k)
  simp only [alookup, h0, if_false]
  apply alookup_eq_none_of_forall_ne
  intro p hp
  have := hs.1 p hp
  exact ne_of_gt (lt_trans hk this)

theorem alookup_tail_head {K V : Type} [LinearOrder K] {k0 : K} {v0 : V} {rest : List (K × V)}
    (hs : keysSorted ((k0, v0) :: rest)) : alookup rest k0 = none := by
  rw [keysSorted, List.pairwise_cons] at hs
  apply alookup_eq_none_of_forall_ne
  intro p hp
  exact ne_of_gt (hs.1 p hp)

theorem sorted_ext {K V : Type} [LinearOrder K] :
    ∀ {a b : List (K × V)}, keysSorted a → keysSorted b →
      (∀ k, alookup a k = alookup b k) → a = b := by
  intro a
  induction a with
  | nil =>
    intro b _ hb hlk
    cases b with
    | nil => rfl
    | cons kv rest =>
      obtain ⟨k0, v0⟩ := kv
      exfalso
      have h1 := hlk k0
      simp [alookup] at h1
  | cons kv ra ih =>
    intro b hsa hsb hlk
    obtain ⟨ka, va⟩ := kv
    cases b with
    | nil =>
      exfalso
      have h1 := hlk ka
      simp [alookup] at h1
    | cons kv2 rb =>
      obtain ⟨kb, vb⟩ := kv2
      have hk : ka = kb := by
        rcases lt_trichotomy ka kb with h | h | h
        · exfalso
          have h1 := hlk ka
          rw [alookup_head_lt hsb h] at h1
          simp [alookup] at h1
        · exact h
        · exfalso
          have h1 := hlk kb
          rw [alookup_head_lt hsa h] at h1
          simp [alookup] at h1
      subst hk
      have hv : va = vb := by
        have h1 := hlk ka
        simp [alookup] at h1
        exact h1
      subst hv
      have htail : ∀ k, alookup ra k = alookup rb k := by
        intro k
        by_cases hkk : ka = k
        · subst hkk
          rw [alookup_tail_head hsa, alookup_tail_head hsb]
        · have h1 := hlk k
          simp [alookup, hkk] at h1
          exact h1
      rw [keysSorted, List.pairwise_cons] at hsa hsb
      rw [ih hsa.2 hsb.2 htail]

theorem vecPop_append {K : Type} (xs : List K) (x : K) :
    vecPop (xs ++ [x]) = some (x, xs) := by
  rw [vecPop]
  rw [List.getLast?_concat]
  rw [List.dropLast_concat]

theorem mapRemove_append_last {K V : Type} [DecidableEq K] {l0 : List (K × V)} {k : K}
    (h : k ∉ keyList l0) (v : V) : mapRemove (l0 ++ [(k, v)]) k = (some v, l0) := by
  induction l0 with
  | nil => simp [mapRemove]
  | cons kv rest ih =>
    obtain ⟨k0, v0⟩ := kv
    rw [keyList] at h
    simp only [List.map_cons, List.mem_cons] at h
    push_neg at h
    have h0 : ¬(k0 = k) := fun e => h.1 e.symm
    have h2 : k ∉ keyList rest := by
      rw [keyList]
      exact h.2
    simp [mapRemove, h0, ih h2]

theorem collect_eq_of_vecPop_some {K V : Type} [DecidableEq K] [Inhabited V]
    (it : DefaultHashMapIter K V) (r : K × List K) (h : vecPop it.keys = some r) :
    it.collect = (r.1, (it._defaulthashmap.remove r.1).1) ::
      DefaultHashMapIter.collect ⟨(it._defaulthashmap.remove r.1).2, r.2⟩ := by
  rw [DefaultHashMapIter.collect]
  split
  · rename_i r2 hr2
    rw [h] at hr2
    injection hr2 with hr3
    subst hr3
    rfl
  · rename_i hr2
    rw [h] at hr2
    exact absurd hr2 (by simp)

theorem collect_eq_of_vecPop_none {K V : Type} [DecidableEq K] [Inhabited V]
    (it : DefaultHashMapIter K V) (h : vecPop it.keys = none) :
    it.collect = [] := by
  rw [DefaultHashMapIter.collect]
  split
  · rename_i r2 hr2
    rw [h] at hr2
    exact absurd hr2 (by simp)
  · rfl

theorem collect_snapshot {K V : Type} [DecidableEq K] [Inhabited V] (d : V)
    (l : List (K × V)) (h : nodupKeys l) :
    DefaultHashMapIter.collect ⟨⟨l, d⟩, keyList l⟩ = l.reverse := by
  induction l using List.reverseRecOn with
  | nil =>
    apply collect_eq_of_vecPop_none
    simp [keyList, vecPop]
  | append_singleton l0 kv ih =>
    obtain ⟨k, v⟩ := kv
    have hnd0 : nodupKeys l0 := by
      rw [nodupKeys, keyList] at h ⊢
      simp only [List.map_append] at h
      exact (List.nodup_append.mp h).1
    have hkn : k ∉ keyList l0 := by
      rw [nodupKeys, keyList] at h
      simp only [List.map_append, List.map_cons, List.map_nil] at h
      rw [keyList]
      intro hm
      rcases List.nodup_append.mp h with ⟨_, _, hdisj⟩
      exact hdisj hm (List.mem_singleton.mpr rfl)
    have hkeys : keyList (l0 ++ [(k, v)]) = keyList l0 ++ [k] := by
      simp [keyList]
    have hpop : vecPop (keyList (l0 ++ [(k, v)])) = some (k, keyList l0) := by
      rw [hkeys]
      exact vecPop_append _ _
    rw [collect_eq_of_vecPop_some _ _ hpop]
    simp only [DefaultHashMap.remove, mapRemove_append_last hkn v]
    simp only [Option.getD_some]
    rw [ih hnd0]
    simp

/-! Claim theorems. -/

/-- C1: for both variants, `get(key)` returns the stored value when the key
is present and the internally held default value (`self._default`) when the
key is absent.  `get` takes `&self` and is modelled as a pure function of
the state, so it cannot change the container: the length is unchanged and a
second `get` on the same absent key returns the same default value. -/
theorem c1_get_read_default {K1 K2 V : Type} [DecidableEq K1] [DecidableEq K2]
    (m : DefaultHashMap K1 V) (b : DefaultBTreeMap K2 V) (k1 : K1) (k2 : K2) :
    (∀ v, alookup m._inner k1 = some v → m.get k1 = v) ∧
    (alookup m._inner k1 = none → m.get k1 = m._default) ∧
    (∀ v, alookup b._inner k2 = some v → b.get k2 = v) ∧
    (alookup b._inner k2 = none → b.get k2 = b._default) := by
  refine ⟨?_, ?_, ?_, ?_⟩
  · intro v h; simp [DefaultHashMap.get, h]
  · intro h; simp [DefaultHashMap.get, h]
  · intro v h; simp [DefaultBTreeMap.get, h]
  · intro h; simp [DefaultBTreeMap.get, h]

/-- Witness for C1 at the spec's own scenario: after `insert(10, 20)`,
`get(&10)` returns `20` and `get(&1)` returns the default `0`. -/
theorem c1_get_read_default_witness :
    (⟨[((10 : Int), (20 : Int))], 0⟩ : DefaultHashMap Int Int).get 10 = 20 ∧
    (⟨[((10 : Int), (20 : Int))], 0⟩ : DefaultHashMap Int Int).get 1 = 0 ∧
    (⟨[((10 : Int), (20 : Int))], 0⟩ : DefaultBTreeMap Int Int).get 10 = 20 ∧
    (⟨[((10 : Int), (20 : Int))], 0⟩ : DefaultBTreeMap Int Int).get 1 = 0 :=
  ⟨(c1_get_read_default ⟨[(10, 20)], 0⟩ ⟨[(10, 20)], 0⟩ 10 10).1 20 (by decide),
   (c1_get_read_default (⟨[(10, 20)], 0⟩ : DefaultHashMap Int Int)
      (⟨[(10, 20)], 0⟩ : DefaultBTreeMap Int Int) 1 1).2.1 (by decide),
   (c1_get_read_default (⟨[(10, 20)], 0⟩ : DefaultHashMap Int Int)
      (⟨[(10, 20)], 0⟩ : DefaultBTreeMap Int Int) 10 10).2.2.1 20 (by decide),
   (c1_get_read_default (⟨[(10, 20)], 0⟩ : DefaultHashMap Int Int)
      (⟨[(10, 20)], 0⟩ : DefaultBTreeMap Int Int) 1 1).2.2.2 (by decide)⟩

/-- C2: for both variants, `get_mut(key)` on an absent key first inserts
`(key, V::default())` so that afterwards `contains_key` holds and the
length grew by exactly one, and hands back the freshly inserted default;
on a present key it hands back the stored value and leaves the map
unchanged. -/
theorem c2_get_mut_materializes {K1 K2 V : Type} [DecidableEq K1] [LinearOrder K2]
    [Inhabited V] (m : DefaultHashMap K1 V) (b : DefaultBTreeMap K2 V) (k1 : K1) (k2 : K2) :
    (alookup m._inner k1 = none →
      (m.getMut k1).1 = default ∧
      ((m.getMut k1).2).containsKey k1 = true ∧
      ((m.getMut k1).2).len = m.len + 1) ∧
    (∀ w, alookup m._inner k1 = some w → (m.getMut k1).1 = w ∧ (m.getMut k1).2 = m) ∧
    (alookup b._inner k2 = none →
      (b.getMut k2).1 = default ∧
      ((b.getMut k2).2).containsKey k2 = true ∧
      ((b.getMut k2).2).len = b.len + 1) ∧
    (∀ w, alookup b._inner k2 = some w → (b.getMut k2).1 = w ∧ (b.getMut k2).2 = b) := by
  refine ⟨?_, ?_, ?_, ?_⟩
  · intro h
    have hp : ((keyList m._inner).any fun k => k1 == k) = false := by
      rw [keyAny_eq_isSome, h]
      rfl
    refine ⟨?_, ?_, ?_⟩
    · simp [DefaultHashMap.getMut, hp, DefaultHashMap.insert, alookup_mapInsert_self]
    · simp [DefaultHashMap.getMut, hp, DefaultHashMap.insert, DefaultHashMap.containsKey,
        alookup_mapInsert_self]
    · simp [DefaultHashMap.getMut, hp, DefaultHashMap.insert, DefaultHashMap.len,
        mapInsert_of_none h]
  · intro w h
    have hp : ((keyList m._inner).any fun k => k1 == k) = true := by
      rw [keyAny_eq_isSome, h]
      rfl
    exact ⟨by simp [DefaultHashMap.getMut, hp, h], by simp [DefaultHashMap.getMut, hp]⟩
  · intro h
    have hp : ((keyList b._inner).any fun k => k2 == k) = false := by
      rw [keyAny_eq_isSome, h]
      rfl
    refine ⟨?_, ?_, ?_⟩
    · simp [DefaultBTreeMap.getMut, hp, DefaultBTreeMap.insert, alookup_sortedInsert_self]
    · simp [DefaultBTreeMap.getMut, hp, DefaultBTreeMap.insert, DefaultBTreeMap.containsKey,
        alookup_sortedInsert_self]
    · simp [DefaultBTreeMap.getMut, hp, DefaultBTreeMap.insert, DefaultBTreeMap.len,
        sortedInsert_length_of_none h]
  · intro w h
    have hp : ((keyList b._inner).any fun k => k2 == k) = true := by
      rw [keyAny_eq_isSome, h]
      rfl
    exact ⟨by simp [DefaultBTreeMap.getMut, hp, h], by simp [DefaultBTreeMap.getMut, hp]⟩

/-- Witness for C2: `get_mut` on the absent key `10` of an empty map returns
the default `0`, makes the key present, and grows the length to one; on the
now-present key it returns the stored value and changes nothing. -/
theorem c2_get_mut_materializes_witness :
    ((⟨[], 0⟩ : DefaultHashMap Int Int).getMut 10).1 = 0 ∧
    (((⟨[], 0⟩ : DefaultHashMap Int Int).getMut 10).2).containsKey 10 = true ∧
    (((⟨[], 0⟩ : DefaultHashMap Int Int).getMut 10).2).len = (⟨[], 0⟩ :
      DefaultHashMap Int Int).len + 1 ∧
    ((⟨[((7 : Int), (9 : Int))], 0⟩ : DefaultBTreeMap Int Int).getMut 7).1 = 9 ∧
    ((⟨[((7 : Int), (9 : Int))], 0⟩ : DefaultBTreeMap Int Int).getMut 7).2 =
      (⟨[(7, 9)], 0⟩ : DefaultBTreeMap Int Int) := by
  have h1 := (c2_get_mut_materializes (⟨[], 0⟩ : DefaultHashMap Int Int)
    (⟨[(7, 9)], 0⟩ : DefaultBTreeMap Int Int) 10 7).1 (by decide)
  have h2 := (c2_get_mut_materializes (⟨[], 0⟩ : DefaultHashMap Int Int)
    (⟨[(7, 9)], 0⟩ : DefaultBTreeMap Int Int) 10 7).2.2.2 9 (by decide)
  exact ⟨h1.1, h1.2.1, h1.2.2, h2.1, h2.2⟩

/-- C3 counterexample: the ordered variant's `insert` returns the unit
value, so the call over a map where key `10` held `20` returns a result
equal to the call on the empty map, although the claim requires the first
to carry the previous value `20` and the second a null/empty result. -/
theorem c3_insert_previous_counterexample :
    (((DefaultBTreeMap.new : DefaultBTreeMap Int Int).insert 10 20).2.insert 10 30).1 =
      ((DefaultBTreeMap.new : DefaultBTreeMap Int Int).insert 10 30).1 ∧
    alookup (((DefaultBTreeMap.new : DefaultBTreeMap Int Int).insert 10 20).2)._inner 10 =
      some 20 ∧
    alookup (DefaultBTreeMap.new : DefaultBTreeMap Int Int)._inner 10 = none :=
  ⟨rfl, by decide, rfl⟩

/-- C3 amended: `insert` inserts or overwrites the entry in both variants;
the hash variant returns the previous value (`Some(old)` when the key was
present, `None` otherwise), while the ordered variant's `insert` discards
the previous value and returns unit. -/
theorem c3_insert_previous_amended {K1 K2 V : Type} [DecidableEq K1] [LinearOrder K2]
    (m : DefaultHashMap K1 V) (b : DefaultBTreeMap K2 V) (k1 : K1) (k2 : K2) (v1 v2 : V) :
    (m.insert k1 v1).1 = alookup m._inner k1 ∧
    alookup ((m.insert k1 v1).2)._inner k1 = some v1 ∧
    (b.insert k2 v2).1 = () ∧
    alookup ((b.insert k2 v2).2)._inner k2 = some v2 :=
  ⟨mapInsert_fst _ _ _, alookup_mapInsert_self _ _ _, rfl, alookup_sortedInsert_self _ _ _⟩

/-- C4 counterexample: two maps with identical (empty) entry lists but
different stored defaults compare unequal in both variants, so the stored
default value is part of the comparison, contrary to the claim. -/
theorem c4_eq_counterexample :
    DefaultHashMap.beq (⟨[], 0⟩ : DefaultHashMap Int Int) ⟨[], 1⟩ = false ∧
    (⟨[], 0⟩ : DefaultHashMap Int Int)._inner = (⟨[], 1⟩ : DefaultHashMap Int Int)._inner ∧
    DefaultBTreeMap.beq (⟨[], 0⟩ : DefaultBTreeMap Int Int) ⟨[], 1⟩ = false ∧
    (⟨[], 0⟩ : DefaultBTreeMap Int Int)._inner = (⟨[], 1⟩ : DefaultBTreeMap Int Int)._inner :=
  ⟨by decide, rfl, by decide, rfl⟩

/-- C4 amended: equality compares the stored entries AND the stored default
value.  For maps with equal stored defaults — which includes every map the
public API can produce — equality holds exactly when the entries are equal:
order-insensitively (same key-to-value function) for the hash variant, and
for the ordered variant the canonical sorted representation makes entry
equality coincide with the same key-to-value function. -/
theorem c4_eq_with_default_amended {K1 K2 V : Type} [DecidableEq K1] [LinearOrder K2]
    [DecidableEq V] (a b : DefaultHashMap K1 V) (c d : DefaultBTreeMap K2 V)
    (ha : nodupKeys a._inner) (hb : nodupKeys b._inner)
    (hc : keysSorted c._inner) (hd : keysSorted d._inner) :
    (DefaultHashMap.beq a b = true ↔
      ((∀ k, alookup a._inner k = alookup b._inner k) ∧ a._default = b._default)) ∧
    (DefaultBTreeMap.beq c d = true ↔
      ((∀ k, alookup c._inner k = alookup d._inner k) ∧ c._default = d._default)) := by
  constructor
  · rw [DefaultHashMap.beq]
    simp only [Bool.and_eq_true, beq_iff_eq]
    rw [hashInnerEq_iff ha hb]
  · rw [DefaultBTreeMap.beq]
    simp only [Bool.and_eq_true, beq_iff_eq]
    constructor
    · rintro ⟨h1, h2⟩
      exact ⟨fun k => by rw [h1], h2⟩
    · rintro ⟨h1, h2⟩
      exact ⟨sorted_ext hc hd h1, h2⟩

/-- Witness for C4 (amended) at concrete one-entry maps. -/
theorem c4_eq_with_default_amended_witness :
    (DefaultHashMap.beq (⟨[((1 : Int), (2 : Int))], 0⟩ : DefaultHashMap Int Int)
        ⟨[(1, 2)], 0⟩ = true ↔
      ((∀ k, alookup (⟨[((1 : Int), (2 : Int))], 0⟩ : DefaultHashMap Int Int)._inner k =
          alookup (⟨[((1 : Int), (2 : Int))], 0⟩ : DefaultHashMap Int Int)._inner k) ∧
        (⟨[((1 : Int), (2 : Int))], 0⟩ : DefaultHashMap Int Int)._default =
          (⟨[((1 : Int), (2 : Int))], 0⟩ : DefaultHashMap Int Int)._default)) ∧
    (DefaultBTreeMap.beq (⟨[((1 : Int), (2 : Int))], 0⟩ : DefaultBTreeMap Int Int)
        ⟨[(1, 2)], 0⟩ = true ↔
      ((∀ k, alookup (⟨[((1 : Int), (2 : Int))], 0⟩ : DefaultBTreeMap Int Int)._inner k =
          alookup (⟨[((1 : Int), (2 : Int))], 0⟩ : DefaultBTreeMap Int Int)._inner k) ∧
        (⟨[((1 : Int), (2 : Int))], 0⟩ : DefaultBTreeMap Int Int)._default =
          (⟨[((1 : Int), (2 : Int))], 0⟩ : DefaultBTreeMap Int Int)._default)) :=
  c4_eq_with_default_amended _ _ _ _ (by simp [nodupKeys, keyList])
    (by simp [nodupKeys, keyList]) (by simp [keysSorted]) (by simp [keysSorted])

/-- C5: for both variants, `remove` on a present key removes the entry,
returns the stored value and shrinks the length by one; on an absent key it
returns a freshly constructed `V::default()` and leaves the map unchanged.
`remove_entry` on a present key removes and returns the stored pair,
shrinking the length by one; on an absent key it returns
`(key.clone(), self._default.clone())` and leaves the map unchanged. -/
theorem c5_remove_policy {K1 K2 V : Type} [DecidableEq K1] [LinearOrder K2] [Inhabited V]
    (m : DefaultHashMap K1 V) (b : DefaultBTreeMap K2 V) (k1 : K1) (k2 : K2) :
    (∀ v, alookup m._inner k1 = some v →
      (m.remove k1).1 = v ∧ (m.remove k1).2.len + 1 = m.len) ∧
    (alookup m._inner k1 = none → (m.remove k1).1 = default ∧ (m.remove k1).2 = m) ∧
    (∀ p, alookupEntry m._inner k1 = some p →
      (m.removeEntry k1).1 = p ∧ (m.removeEntry k1).2.len + 1 = m.len) ∧
    (alookupEntry m._inner k1 = none →
      (m.removeEntry k1).1 = (k1, m._default) ∧ (m.removeEntry k1).2 = m) ∧
    (∀ v, alookup b._inner k2 = some v →
      (b.remove k2).1 = v ∧ (b.remove k2).2.len + 1 = b.len) ∧
    (alookup b._inner k2 = none → (b.remove k2).1 = default ∧ (b.remove k2).2 = b) ∧
    (∀ p, alookupEntry b._inner k2 = some p →
      (b.removeEntry k2).1 = p ∧ (b.removeEntry k2).2.len + 1 = b.len) ∧
    (alookupEntry b._inner k2 = none →
      (b.removeEntry k2).1 = (k2, b._default) ∧ (b.removeEntry k2).2 = b) := by
  refine ⟨?_, ?_, ?_, ?_, ?_, ?_, ?_, ?_⟩
  · intro v h
    refine ⟨?_, ?_⟩
    · simp [DefaultHashMap.remove, mapRemove_fst, h]
    · simpa [DefaultHashMap.remove, DefaultHashMap.len] using mapRemove_length_of_some h
  · intro h
    refine ⟨?_, ?_⟩
    · simp [DefaultHashMap.remove, mapRemove_fst, h]
    · simp [DefaultHashMap.remove, mapRemove_of_none h]
  · intro p h
    refine ⟨?_, ?_⟩
    · simp [DefaultHashMap.removeEntry, mapRemoveEntry_fst, h]
    · rw [alookupEntry_eq] at h
      cases hak : alookup m._inner k1 with
      | none => rw [hak] at h; simp at h
      | some v =>
        simpa [DefaultHashMap.removeEntry, DefaultHashMap.len, mapRemoveEntry_snd] using
          mapRemove_length_of_some hak
  · intro h
    have hak : alookup m._inner k1 = none := by
      rw [alookupEntry_eq] at h
      cases hx : alookup m._inner k1 with
      | none => rfl
      | some v => rw [hx] at h; simp at h
    refine ⟨?_, ?_⟩
    · simp [DefaultHashMap.removeEntry, mapRemoveEntry_fst, h]
    · simp [DefaultHashMap.removeEntry, mapRemoveEntry_snd, mapRemove_of_none hak]
  · intro v h
    refine ⟨?_, ?_⟩
    · simp [DefaultBTreeMap.remove, mapRemove_fst, h]
    · simpa [DefaultBTreeMap.remove, DefaultBTreeMap.len] using mapRemove_length_of_some h
  · intro h
    refine ⟨?_, ?_⟩
    · simp [DefaultBTreeMap.remove, mapRemove_fst, h]
    · simp [DefaultBTreeMap.remove, mapRemove_of_none h]
  · intro p h
    refine ⟨?_, ?_⟩
    · simp [DefaultBTreeMap.removeEntry, mapRemoveEntry_fst, h]
    · rw [alookupEntry_eq] at h
      cases hak : alookup b._inner k2 with
      | none => rw [hak] at h; simp at h
      | some v =>
        simpa [DefaultBTreeMap.removeEntry, DefaultBTreeMap.len, mapRemoveEntry_snd] using
          mapRemove_length_of_some hak
  · intro h
    have hak : alookup b._inner k2 = none := by
      rw [alookupEntry_eq] at h
      cases hx : alookup b._inner k2 with
      | none => rfl
      | some v => rw [hx] at h; simp at h
    refine ⟨?_, ?_⟩
    · simp [DefaultBTreeMap.removeEntry, mapRemoveEntry_fst, h]
    · simp [DefaultBTreeMap.removeEntry, mapRemoveEntry_snd, mapRemove_of_none hak]

/-- Witness for C5 at the spec's scenarios: removing the present key `10`
returns `20` and empties the map; removing from an empty map returns the
default `0` and leaves it empty; `remove_entry` returns the stored pair
when present and `(key, default)` when absent. -/
theorem c5_remove_policy_witness :
    ((⟨[((10 : Int), (20 : Int))], 0⟩ : DefaultHashMap Int Int).remove 10).1 = 20 ∧
    ((⟨[((10 : Int), (20 : Int))], 0⟩ : DefaultHashMap Int Int).remove 10).2.len + 1 =
      (⟨[((10 : Int), (20 : Int))], 0⟩ : DefaultHashMap Int Int).len ∧
    ((⟨[], 0⟩ : DefaultBTreeMap Int Int).remove 1).1 = 0 ∧
    ((⟨[], 0⟩ : DefaultBTreeMap Int Int).remove 1).2 = (⟨[], 0⟩ : DefaultBTreeMap Int Int) ∧
    ((⟨[((5 : Int), (20 : Int))], 0⟩ : DefaultBTreeMap Int Int).removeEntry 5).1 = (5, 20) ∧
    ((⟨[], 0⟩ : DefaultHashMap Int Int).removeEntry 1).1 = (1, 0) := by
  have hh := c5_remove_policy (⟨[((10 : Int), (20 : Int))], 0⟩ : DefaultHashMap Int Int)
    (⟨[], 0⟩ : DefaultBTreeMap Int Int) 10 1
  have hb := c5_remove_policy (⟨[], 0⟩ : DefaultHashMap Int Int)
    (⟨[((5 : Int), (20 : Int))], 0⟩ : DefaultBTreeMap Int Int) 1 5
  have h1 := hh.1 20 (by decide)
  have h2 := hh.2.2.2.2.2.1 (by decide)
  have h3 := (hb.2.2.2.2.2.2.1) (5, 20) (by decide)
  have h4 := (hb.2.2.2.1) (by decide)
  exact ⟨h1.1, h1.2, h2.1, h2.2, h3.1, h4.1⟩

/-- C6: the index operator of both variants is a read-only total function
with no panicking path (it is defined by `unwrap_or` on the lookup): it
returns the stored value when the key is present, the stored default when
absent, and agrees with `get` everywhere. -/
theorem c6_index_total_default {K1 K2 V : Type} [DecidableEq K1] [DecidableEq K2]
    (m : DefaultHashMap K1 V) (b : DefaultBTreeMap K2 V) (k1 : K1) (k2 : K2) :
    (∀ v, alookup m._inner k1 = some v → m.index k1 = v) ∧
    (alookup m._inner k1 = none → m.index k1 = m._default) ∧
    m.index k1 = m.get k1 ∧
    (∀ v, alookup b._inner k2 = some v → b.index k2 = v) ∧
    (alookup b._inner k2 = none → b.index k2 = b._default) ∧
    b.index k2 = b.get k2 := by
  refine ⟨?_, ?_, rfl, ?_, ?_, rfl⟩
  · intro v h; simp [DefaultHashMap.index, h]
  · intro h; simp [DefaultHashMap.index, h]
  · intro v h; simp [DefaultBTreeMap.index, h]
  · intro h; simp [DefaultBTreeMap.index, h]

/-- Witness for C6: indexing a missing key returns the default value
instead of aborting. -/
theorem c6_index_total_default_witness :
    (⟨[((1 : Int), (0 : Int)), (2, 0), (3, 0)], 0⟩ : DefaultHashMap Int Int).index 0 = 0 ∧
    (⟨[((1 : Int), (0 : Int)), (2, 0), (3, 0)], 0⟩ : DefaultBTreeMap Int Int).index 0 = 0 ∧
    (⟨[((1 : Int), (0 : Int)), (2, 0), (3, 0)], 0⟩ : DefaultHashMap Int Int).index 1 = 0 := by
  have h := c6_index_total_default
    (⟨[((1 : Int), (0 : Int)), (2, 0), (3, 0)], 0⟩ : DefaultHashMap Int Int)
    (⟨[((1 : Int), (0 : Int)), (2, 0), (3, 0)], 0⟩ : DefaultBTreeMap Int Int) 0 0
  have h2 := c6_index_total_default
    (⟨[((1 : Int), (0 : Int)), (2, 0), (3, 0)], 0⟩ : DefaultHashMap Int Int)
    (⟨[((1 : Int), (0 : Int)), (2, 0), (3, 0)], 0⟩ : DefaultBTreeMap Int Int) 1 1
  exact ⟨h.2.1 (by decide), h.2.2.2.2.1 (by decide), h2.1 0 (by decide)⟩

/-- C7: converting a `DefaultMap` into its plain backing container and back
preserves the entries exactly, resets the default field to a freshly
constructed default on the way in, and discards it on the way out; the
conversion out returns the backing container unchanged. -/
theorem c7_roundtrip_conversions {K1 K2 V : Type} [Inhabited V]
    (m : DefaultHashMap K1 V) (b : DefaultBTreeMap K2 V)
    (l1 : List (K1 × V)) (l2 : List (K2 × V)) :
    (DefaultHashMap.fromHashMap (DefaultHashMap.toHashMap m))._inner = m._inner ∧
    (DefaultHashMap.fromHashMap (DefaultHashMap.toHashMap m))._default = (default : V) ∧
    DefaultHashMap.toHashMap (DefaultHashMap.fromHashMap l1) = l1 ∧
    (DefaultBTreeMap.fromBTreeMap (DefaultBTreeMap.toBTreeMap b))._inner = b._inner ∧
    (DefaultBTreeMap.fromBTreeMap (DefaultBTreeMap.toBTreeMap b))._default = (default : V) ∧
    DefaultBTreeMap.toBTreeMap (DefaultBTreeMap.fromBTreeMap l2) = l2 :=
  ⟨rfl, rfl, rfl, rfl, rfl, rfl⟩

/-- C8: on the ordered variant, `range(2..10)` over the map holding keys
`0..20` with `value = key` yields exactly the pairs `(2,2)` through `(9,9)`
in ascending key order, and for every map a range whose start exceeds its
end — under any combination of inclusive/exclusive bounds — or whose bounds
are equal and both exclusive aborts the call instead of returning a
value. -/
theorem c8_range_contract {K V : Type} [LinearOrder K]
    (b : DefaultBTreeMap K V) (x y : K) :
    (y < x →
      b.range (RangeBound.included x) (RangeBound.included y) = Except.error () ∧
      b.range (RangeBound.included x) (RangeBound.excluded y) = Except.error () ∧
      b.range (RangeBound.excluded x) (RangeBound.included y) = Except.error () ∧
      b.range (RangeBound.excluded x) (RangeBound.excluded y) = Except.error ()) ∧
    b.range (RangeBound.excluded x) (RangeBound.excluded x) = Except.error () ∧
    ((List.range 20).foldl
        (fun mm i => (DefaultBTreeMap.insert mm (i : Int) (i : Int)).2)
        (DefaultBTreeMap.new : DefaultBTreeMap Int Int)).range
      (RangeBound.included 2) (RangeBound.excluded 10) =
      Except.ok [(2, 2), (3, 3), (4, 4), (5, 5), (6, 6), (7, 7), (8, 8), (9, 9)] := by
  refine ⟨?_, ?_, ?_⟩
  · intro h
    refine ⟨?_, ?_, ?_, ?_⟩ <;> simp [DefaultBTreeMap.range, rangeInvalid, h]
  · simp [DefaultBTreeMap.range, rangeInvalid]
  · rfl

/-- Witness for C8: `range` called with start `3` above end `1`, and with
equal bounds both exclusive, aborts. -/
theorem c8_range_contract_witness :
    (DefaultBTreeMap.new : DefaultBTreeMap Int Int).range (RangeBound.included 3)
      (RangeBound.included 1) = Except.error () ∧
    (DefaultBTreeMap.new : DefaultBTreeMap Int Int).range (RangeBound.excluded 3)
      (RangeBound.excluded 3) = Except.error () := by
  have h := c8_range_contract (DefaultBTreeMap.new : DefaultBTreeMap Int Int) (3 : Int) 1
  exact ⟨(h.1 (by decide)).1, h.2.1⟩

/-- C9: the stored default is never mutated — in every state reachable by
any sequence of public operations the `_default` field equals
`V::default()` — and absence-materialization by `get_mut` inserts a freshly
constructed `V::default()` into the backing container rather than sharing
the stored instance.  (That handed-out mutable references point only into
the backing container is reflected in the model by the fact that no
operation writes the `_default` field.) -/
theorem c9_default_field_invariant {K1 K2 V : Type} [DecidableEq K1] [LinearOrder K2]
    [Inhabited V] :
    (∀ m : DefaultHashMap K1 V, HReachable m → m._default = (default : V)) ∧
    (∀ b : DefaultBTreeMap K2 V, BReachable b → b._default = (default : V)) ∧
    (∀ (m : DefaultHashMap K1 V) (k : K1), alookup m._inner k = none →
      alookup ((m.getMut k).2)._inner k = some (default : V)) ∧
    (∀ (b : DefaultBTreeMap K2 V) (k : K2), alookup b._inner k = none →
      alookup ((b.getMut k).2)._inner k = some (default : V)) := by
  refine ⟨?_, ?_, ?_, ?_⟩
  · intro m h
    induction h with
    | new => rfl
    | withHasher => rfl
    | fromHashMap l => rfl
    | insert m k v hm ih => exact ih
    | getMut m k hm ih =>
      simp only [DefaultHashMap.getMut]
      split
      · exact ih
      · exact ih
    | remove m k hm ih => exact ih
    | removeEntry m k hm ih => exact ih
    | clear m hm ih => exact ih
    | retain m f hm ih => exact ih
    | mutateValues m f hm ih => exact ih
  · intro b h
    induction h with
    | new => rfl
    | fromBTreeMap l => rfl
    | insert m k v hm ih => exact ih
    | getMut m k hm ih =>
      simp only [DefaultBTreeMap.getMut]
      split
      · exact ih
      · exact ih
    | remove m k hm ih => exact ih
    | removeEntry m k hm ih => exact ih
    | clear m hm ih => exact ih
    | retain m f hm ih => exact ih
    | mutateValues m f hm ih => exact ih
    | popFirst m hm ih =>
      simp only [DefaultBTreeMap.popFirst]
      split
      · exact ih
      · exact ih
    | popLast m hm ih =>
      simp only [DefaultBTreeMap.popLast]
      split
      · exact ih
      · exact ih
    | appendLeft m o hm ho ihm iho => exact ihm
    | appendRight m o hm ho ihm iho => exact iho
    | splitOffLeft m k hm ih => exact ih
    | splitOffRight m k hm ih => rfl
  · intro m k h
    have hp : ((keyList m._inner).any fun x => k == x) = false := by
      rw [keyAny_eq_isSome, h]
      rfl
    simp [DefaultHashMap.getMut, hp, DefaultHashMap.insert, alookup_mapInsert_self]
  · intro b k h
    have hp : ((keyList b._inner).any fun x => k == x) = false := by
      rw [keyAny_eq_isSome, h]
      rfl
    simp [DefaultBTreeMap.getMut, hp, DefaultBTreeMap.insert, alookup_sortedInsert_self]

/-- Witness for C9: a state reached by `new` followed by `insert(1, 5)`
still stores the default `0`, and `get_mut` on the absent key `2` of a map
whose stored default field were `3` would still materialize the entry with
the freshly constructed `V::default() = 0`, not the stored instance. -/
theorem c9_default_field_invariant_witness :
    (((DefaultHashMap.new : DefaultHashMap Int Int).insert 1 5).2)._default =
      (default : Int) ∧
    alookup (((⟨[], 3⟩ : DefaultHashMap Int Int).getMut 2).2)._inner 2 =
      some (default : Int) := by
  have h := @c9_default_field_invariant Int Int Int _ _ _
  exact ⟨h.1 _ (HReachable.insert _ 1 5 HReachable.new),
    h.2.2.1 (⟨[], 3⟩ : DefaultHashMap Int Int) 2 (by decide)⟩

/-- C10: the hash variant's bespoke consuming iterator — snapshot of the
key list, then repeated `remove` on the owned map, popping keys from the
back of the snapshot — yields exactly the stored entries (the reverse of
the backing list, hence the same multiset the backing `HashMap`'s own
iterator yields) and terminates after exactly `len()` steps. -/
theorem c10_into_iter_drains {K V : Type} [DecidableEq K] [Inhabited V]
    (m : DefaultHashMap K V) (h : nodupKeys m._inner) :
    DefaultHashMapIter.collect m.intoIter = m._inner.reverse ∧
    List.Perm (DefaultHashMapIter.collect m.intoIter) m._inner ∧
    (DefaultHashMapIter.collect m.intoIter).length = m.len := by
  have hc : DefaultHashMapIter.collect m.intoIter = m._inner.reverse :=
    collect_snapshot m._default m._inner h
  refine ⟨hc, ?_, ?_⟩
  · rw [hc]
    exact List.reverse_perm m._inner
  · rw [hc]
    simp [DefaultHashMap.len]

/-- Witness for C10 on a two-entry map: consuming the iterator yields both
stored pairs (in reverse snapshot order) and exactly `len() = 2` of them. -/
theorem c10_into_iter_drains_witness :
    DefaultHashMapIter.collect
      (⟨[((1 : Int), (10 : Int)), (2, 20)], 0⟩ : DefaultHashMap Int Int).intoIter =
      [(2, 20), (1, 10)] ∧
    (DefaultHashMapIter.collect
      (⟨[((1 : Int), (10 : Int)), (2, 20)], 0⟩ :
        DefaultHashMap Int Int).intoIter).length = 2 := by
  have h := c10_into_iter_drains
    (⟨[((1 : Int), (10 : Int)), (2, 20)], 0⟩ : DefaultHashMap Int Int)
    (by simp [nodupKeys, keyList])
  exact ⟨h.1, h.2.2⟩

end Defaultdict
